import Mathlib

/-!
Verification of the FixedIncomeValuation repository (src/bond.py,
src/discount_curve.py) against its natural-language specification.

Dates are modelled in the proleptic Gregorian calendar exactly as Python's
`datetime.date` does: a date is a (year, month, day) triple, and `toOrd`
is Python's `date.toordinal` (day 1 = 0001-01-01, a Monday).  No upper
year bound is modelled (Python's 9999 cap is an implementation artifact
the spec does not mention).  Derived dates (coupon ex/payment dates, bond
maturities, valuation as-of dates) are represented by their ordinals
(`Int`), which is a faithful order-isomorphic image of valid dates.
Monetary amounts and discount factors are idealised as exact rationals
(`ℚ`); the yield conversion, which takes a real power, is idealised over
the reals (`ℝ`).
-/

/-- Gregorian leap-year test, as implemented by Python's `calendar`/`datetime`. -/
def isLeap (y : Nat) : Bool :=
  y % 4 == 0 && (y % 100 != 0 || y % 400 == 0)

/-- Number of days in month `m` of year `y` (months are 1-based). -/
def daysInMonth (y m : Nat) : Nat :=
  if m = 2 then (if isLeap y then 29 else 28)
  else if m = 4 ∨ m = 6 ∨ m = 9 ∨ m = 11 then 30
  else 31

/-- Cumulative days before month `m` in a non-leap year. -/
def monthOffset (m : Nat) : Nat :=
  if m ≤ 1 then 0 else if m = 2 then 31 else if m = 3 then 59
  else if m = 4 then 90 else if m = 5 then 120 else if m = 6 then 151
  else if m = 7 then 181 else if m = 8 then 212 else if m = 9 then 243
  else if m = 10 then 273 else if m = 11 then 304 else 334

/-- Cumulative days before month `m` in year `y` (leap day included for `m ≥ 3`). -/
def daysBeforeMonth (y m : Nat) : Nat :=
  monthOffset m + (if 3 ≤ m ∧ isLeap y then 1 else 0)

/-- Days strictly before January 1 of year `y` (year 1 is the first year). -/
def daysBeforeYear (y : Nat) : Nat :=
  365 * (y - 1) + (y - 1) / 4 - (y - 1) / 100 + (y - 1) / 400

/-- A calendar date, as Python's `datetime.date` stores it. -/
structure Date where
  year : Nat
  month : Nat
  day : Nat
deriving DecidableEq

/-- The validity condition Python's `date(y, m, d)` constructor checks
(minus the year-9999 cap, see the module docstring). -/
def Date.IsValid (dt : Date) : Prop :=
  1 ≤ dt.year ∧ 1 ≤ dt.month ∧ dt.month ≤ 12 ∧ 1 ≤ dt.day ∧
    dt.day ≤ daysInMonth dt.year dt.month

instance (dt : Date) : Decidable dt.IsValid := by
  unfold Date.IsValid; infer_instance

/-- Python's `date(y, m, d)`: returns the date when valid, `none` models the
`ValueError` Python raises on an invalid triple. -/
def mkDate (y m d : Nat) : Option Date :=
  if (Date.mk y m d).IsValid then some (Date.mk y m d) else none

/-- Python's `date.toordinal`: day number of the date, with
0001-01-01 ↦ 1.  Defined on all triples; proofs restrict to valid ones. -/
def Date.toOrd (dt : Date) : Int :=
  ((daysBeforeYear dt.year + daysBeforeMonth dt.year dt.month + dt.day : Nat) : Int)

/-- Python's `date.weekday` on ordinals: 0 = Monday, ..., 6 = Sunday
(0001-01-01, ordinal 1, is a Monday). -/
def weekday (o : Int) : Int :=
  (o - 1) % 7

/-- Represents a coupon paid by a bond (class `Coupon` in `bond.py`);
the two dates are stored as Python-date ordinals. -/
structure Coupon where
  coupon_amount : ℚ
  ex_date : Int
  payment_date : Int
deriving DecidableEq

/-- A fixed-rate government bond (class `FixedRateACGB` in `bond.py`);
`maturity` is a Python-date ordinal and `_market_dirty_price` is the
private field behind the price accessors (initialised to 0 by `__init__`). -/
structure FixedRateACGB where
  principle : ℚ
  coupons : List Coupon
  maturity : Int
  _market_dirty_price : ℚ
deriving DecidableEq

namespace FixedRateACGB

/-- `FixedRateACGB.__init__`: stores the fields and zeroes the price. -/
def init (principle : ℚ) (coupons : List Coupon) (maturity : Int) : FixedRateACGB :=
  ⟨principle, coupons, maturity, 0⟩

/-- The read accessor `market_value` (a `@property` whose getter returns
`self._market_dirty_price`). -/
def market_value (b : FixedRateACGB) : ℚ :=
  b._market_dirty_price

/-- The read accessor `market_dirty_price`.  In Python,
`@market_value.setter def market_dirty_price(...)` binds the name
`market_dirty_price` to a copy of the `market_value` property with the
setter installed; reading `bond.market_dirty_price` therefore invokes the
inherited getter of `market_value`, which returns `self._market_dirty_price`. -/
def market_dirty_price (b : FixedRateACGB) : ℚ :=
  b._market_dirty_price

/-- The write accessor `bond.market_dirty_price = v` (the setter of the
`market_dirty_price` property): assigns `self._market_dirty_price = v`. -/
def set_market_dirty_price (b : FixedRateACGB) (v : ℚ) : FixedRateACGB :=
  { b with _market_dirty_price := v }

/-- `FixedRateACGB.calculate_dirty_value`: sums the discounted amounts of
the coupons whose ex-date is strictly after `today`, plus the discounted
principal at maturity. -/
def calculate_dirty_value (b : FixedRateACGB) (discount_curve : Int → ℚ)
    (today : Int) : ℚ :=
  let future_coupons := b.coupons.filter (fun c => today < c.ex_date)
  let discounted_coupon_value :=
    (future_coupons.map (fun c => discount_curve c.payment_date * c.coupon_amount)).sum
  let discounted_face_value := discount_curve b.maturity * b.principle
  discounted_coupon_value + discounted_face_value

/-- `FixedRateACGB._business_date`, translated with a fuel parameter in
place of the unbounded recursion: advance one day at a time while the
weekday is Saturday (5) or Sunday (6).  Fuel 7 always suffices, as
`weekday_business_date_le` proves (a weekday is reached within 2 steps). -/
def business_aux : Nat → Int → Int
  | 0, d => d
  | n + 1, d => if weekday d > 4 then business_aux n (d + 1) else d

/-- `FixedRateACGB._business_date` on ordinals. -/
def _business_date (reference_date : Int) : Int :=
  business_aux 7 reference_date

/-- One iteration's fuel requirement for `coupon_loop` (see below):
an upper bound on the remaining loop iterations derived from the
ordinal distance to `last_pay_date`. -/
def loopFuel (last cur : Date) : Nat :=
  (last.toOrd + 1 - cur.toOrd).toNat + 1

/-- The `while coupon_date <= last_pay_date` loop of
`construct_yearly_coupon_series`, with a fuel parameter: each pass
appends a coupon for the current date and steps the date forward one
calendar year via `date(year + 1, month, day)`; `none` models the
`ValueError` Python raises when that triple is invalid (Feb 29 of a
non-leap year).  The fuel chosen by `construct_yearly_coupon_series`
always suffices because the ordinal grows by at least 364 per pass
while the fuel shrinks by 1 (`coupon_loop_eq_claim_series` never hits
the 0 case). -/
def coupon_loop (last : Date) (amount : ℚ) : Nat → Date → Option (List Coupon)
  | 0, _ => none
  | n + 1, cur =>
    if cur.toOrd ≤ last.toOrd then
      match mkDate (cur.year + 1) cur.month cur.day with
      | none => none
      | some next =>
        (coupon_loop last amount n next).map
          (fun l => Coupon.mk amount (_business_date (cur.toOrd - 9))
            (_business_date cur.toOrd) :: l)
    else
      some []

/-- `FixedRateACGB.construct_yearly_coupon_series`: annual coupons from
`first_pay_date` while on or before `last_pay_date`, each with amount
`principle * rate`, ex-date the business roll of the coupon date minus 9
days and payment date the business roll of the coupon date. -/
def construct_yearly_coupon_series (first_pay_date last_pay_date : Date)
    (rate principle : ℚ) : Option (List Coupon) :=
  coupon_loop last_pay_date (principle * rate)
    (loopFuel last_pay_date first_pay_date) first_pay_date

/-- `FixedRateACGB.construct`: a bond made of two interleaved annual
series each paying half the annual rate, both running to maturity. -/
def construct (first_coupon_pay_date second_coupon_pay_date maturity_date : Date)
    (coupon_rate principle : ℚ) : Option FixedRateACGB := do
  let coupons_a ← construct_yearly_coupon_series first_coupon_pay_date
    maturity_date (coupon_rate / 2) principle
  let coupons_b ← construct_yearly_coupon_series second_coupon_pay_date
    maturity_date (coupon_rate / 2) principle
  pure (init principle (coupons_a ++ coupons_b) maturity_date.toOrd)

end FixedRateACGB

/-- The stepped coupon dates described by the spec's
`generateAnnualCoupons`: starting at `cur`, the dates obtained by
stepping one calendar year at a time (same month and day) while the
stepped date is on or before `last`.  Stated with the same fuel schema
as the source loop; the fuel never runs out for the inputs the theorems
quantify over. -/
def stepped_dates (last : Date) : Nat → Date → List Date
  | 0, _ => []
  | n + 1, cur =>
    if cur.toOrd ≤ last.toOrd then
      cur :: stepped_dates last n (Date.mk (cur.year + 1) cur.month cur.day)
    else []

/-- The coupon list the claim (spec §4.2) describes: one coupon per
stepped date, with payment date the business roll of the stepped date,
ex-date the business roll of the stepped date minus 9 days, and amount
`principle * rate`. -/
def claim_coupon_series (first last : Date) (rate principle : ℚ) : List Coupon :=
  (stepped_dates last (FixedRateACGB.loopFuel last first) first).map
    (fun dt => Coupon.mk (principle * rate)
      (FixedRateACGB._business_date (dt.toOrd - 9))
      (FixedRateACGB._business_date dt.toOrd))

/-- The coupon list claim C4 describes for a first pay date `(y0, m, d)`
and `N` whole years: one coupon per stepped year `y0 + i`,
`i = 0, ..., N`. -/
def claim_yearly_coupons (y0 m d N : Nat) (rate principle : ℚ) : List Coupon :=
  (List.range (N + 1)).map (fun i =>
    Coupon.mk (principle * rate)
      (FixedRateACGB._business_date ((Date.mk (y0 + i) m d).toOrd - 9))
      (FixedRateACGB._business_date (Date.mk (y0 + i) m d).toOrd))

/-- `_date_to_year_fraction_act_365` from `discount_curve.py`:
`(future_date - today).days / 365` on ordinals, idealised over `ℚ`. -/
def _date_to_year_fraction_act_365 (today future_date : Int) : ℚ :=
  ((future_date - today : Int) : ℚ) / 365

/-- `discount_to_yield` from `discount_curve.py`:
`pow(discount, -1.0 / year_frac) - 1`, idealised over the reals.
`none` models the absence of a real float result: the
`ZeroDivisionError` from `-1.0 / 0.0`, the `ZeroDivisionError` from
`0.0 ** negative`, and the complex (non-float) value Python returns for
a negative base raised to a non-integral power.  A negative base raised
to an integral power is a real number and is returned. -/
noncomputable def discount_to_yield (discount : ℝ) (future_date today : Int) :
    Option ℝ :=
  let year_frac := _date_to_year_fraction_act_365 today future_date
  if year_frac = 0 then none
  else
    let e : ℚ := -1 / year_frac
    if 0 < discount then some (discount ^ (e : ℝ) - 1)
    else if discount = 0 then
      (if e < 0 then none else some ((0 : ℝ) - 1))
    else if e.den = 1 then some (discount ^ e.num - 1)
    else none

/-- `DiscountFitOptions` from `discount_curve.py` (field names as in the
source, including the `extenion_days` spelling). -/
structure DiscountFitOptions where
  knot_count : Nat
  extenion_days : Nat

/-- The `DiscountFitOptions.__init__` defaults. -/
def DiscountFitOptions.default : DiscountFitOptions :=
  ⟨5, 100⟩

/-- `numpy.linspace(a, b, n)` over `ℚ`: `n` evenly spaced points from `a`
to `b` inclusive.  (For `n = 1` the division is by zero, which in `ℚ`
yields 0, so the single point is `a`, matching numpy.) -/
def linspace (a b : ℚ) (n : Nat) : List ℚ :=
  (List.range n).map (fun i : Nat => a + (b - a) * (i : ℚ) / ((n - 1 : Nat) : ℚ))

/-- Failure modes of the curve-fitting entry point: `indexError` models
the `IndexError` Python raises on an out-of-range list access;
`emptyBondSet` is the explicit empty-input calibration error the spec
demands (never produced by the source). -/
inductive FitError where
  | indexError
  | emptyBondSet
deriving DecidableEq

/-- The knot-location stage of `fit_discount_curve` (lines 66-79 of
`discount_curve.py`): sort the bonds by maturity, read the first and
last maturities (an out-of-range access on an empty list), extend by
`extenion_days` on both sides, clamp the start to `today`, convert to
year fractions and lay out `knot_count` linspace knots.  The subsequent
scipy least-squares solve consumes these locations and is external to
the repository. -/
def fit_knot_locations (bonds : List FixedRateACGB)
    (options : DiscountFitOptions) (today : Int) : Except FitError (List ℚ) :=
  let sorted_bonds := bonds.mergeSort (fun a b => a.maturity ≤ b.maturity)
  match sorted_bonds.head?, sorted_bonds.getLast? with
  | some b0, some bl =>
    let first_maturity := b0.maturity
    let last_maturity := bl.maturity
    let curve_start := first_maturity - options.extenion_days
    let curve_end := last_maturity + options.extenion_days
    let curve_start := if curve_start < today then today else curve_start
    let cv_start_yr_frac := _date_to_year_fraction_act_365 today curve_start
    let cv_end_yr_frac := _date_to_year_fraction_act_365 today curve_end
    Except.ok (linspace cv_start_yr_frac cv_end_yr_frac options.knot_count)
  | _, _ => Except.error FitError.indexError

/-- The knot layout claim C5 describes, given the minimum bond maturity
`m` and maximum bond maturity `M`: `knot_count` equally spaced
year-fraction points from the curve start (the minimum maturity minus
the extension days, clamped to `today`) to the curve end (the maximum
maturity plus the extension days). -/
def claim_knot_locations (options : DiscountFitOptions) (today m M : Int) : List ℚ :=
  let curve_start := max today (m - options.extenion_days)
  let sf := _date_to_year_fraction_act_365 today curve_start
  let ef := _date_to_year_fraction_act_365 today (M + options.extenion_days)
  (List.range options.knot_count).map
    (fun i : Nat => sf + (ef - sf) * (i : ℚ) / ((options.knot_count - 1 : Nat) : ℚ))

instance : Std.Antisymm (fun (x1 x2 : Int) => x1 ≤ x2) :=
  ⟨fun h1 h2 => le_antisymm h1 h2⟩

/-! ### Calendar groundwork -/

theorem weekday_bounds (o : Int) : 0 ≤ weekday o ∧ weekday o < 7 := by
  unfold weekday; omega

theorem weekday_succ (o : Int) : weekday (o + 1) = (weekday o + 1) % 7 := by
  unfold weekday; omega

theorem business_aux_succ (n : Nat) (x : Int) :
    FixedRateACGB.business_aux (n + 1) x =
      if weekday x > 4 then FixedRateACGB.business_aux n (x + 1) else x := rfl

theorem business_date_of_weekday_le (d : Int) (h : weekday d ≤ 4) :
    FixedRateACGB._business_date d = d := by
  show FixedRateACGB.business_aux (6 + 1) d = d
  rw [business_aux_succ, if_neg (by omega)]

theorem business_date_of_weekday_sat (d : Int) (h : weekday d = 5) :
    FixedRateACGB._business_date d = d + 2 := by
  have h1 : weekday (d + 1) = 6 := by rw [weekday_succ, h]; decide
  have h2 : weekday (d + 1 + 1) = 0 := by rw [weekday_succ, h1]; decide
  show FixedRateACGB.business_aux (6 + 1) d = d + 2
  rw [business_aux_succ, if_pos (by omega)]
  show FixedRateACGB.business_aux (5 + 1) (d + 1) = d + 2
  rw [business_aux_succ, if_pos (by omega)]
  show FixedRateACGB.business_aux (4 + 1) (d + 1 + 1) = d + 2
  rw [business_aux_succ, if_neg (by omega)]
  omega

theorem business_date_of_weekday_sun (d : Int) (h : weekday d = 6) :
    FixedRateACGB._business_date d = d + 1 := by
  have h1 : weekday (d + 1) = 0 := by rw [weekday_succ, h]; decide
  show FixedRateACGB.business_aux (6 + 1) d = d + 1
  rw [business_aux_succ, if_pos (by omega)]
  show FixedRateACGB.business_aux (5 + 1) (d + 1) = d + 1
  rw [business_aux_succ, if_neg (by omega)]

theorem le_business_date (d : Int) : d ≤ FixedRateACGB._business_date d := by
  have hb := weekday_bounds d
  rcases show weekday d ≤ 4 ∨ weekday d = 5 ∨ weekday d = 6 by omega with h | h | h
  · rw [business_date_of_weekday_le d h]
  · rw [business_date_of_weekday_sat d h]; omega
  · rw [business_date_of_weekday_sun d h]; omega

theorem business_date_le (d : Int) : FixedRateACGB._business_date d ≤ d + 2 := by
  have hb := weekday_bounds d
  rcases show weekday d ≤ 4 ∨ weekday d = 5 ∨ weekday d = 6 by omega with h | h | h
  · rw [business_date_of_weekday_le d h]; omega
  · rw [business_date_of_weekday_sat d h]
  · rw [business_date_of_weekday_sun d h]; omega

theorem weekday_business_date_le (d : Int) :
    weekday (FixedRateACGB._business_date d) ≤ 4 := by
  have hb := weekday_bounds d
  rcases show weekday d ≤ 4 ∨ weekday d = 5 ∨ weekday d = 6 by omega with h | h | h
  · rw [business_date_of_weekday_le d h]; exact h
  · rw [business_date_of_weekday_sat d h, show d + 2 = d + 1 + 1 from by ring]
    have h1 : weekday (d + 1) = 6 := by rw [weekday_succ, h]; decide
    have h2 : weekday (d + 1 + 1) = 0 := by rw [weekday_succ, h1]; decide
    omega
  · rw [business_date_of_weekday_sun d h]
    have h1 : weekday (d + 1) = 0 := by rw [weekday_succ, h]; decide
    omega

theorem isLeap_iff (y : Nat) :
    isLeap y = true ↔ (y % 4 = 0 ∧ (y % 100 ≠ 0 ∨ y % 400 = 0)) := by
  unfold isLeap
  simp only [Bool.and_eq_true, Bool.or_eq_true, beq_iff_eq, bne_iff_ne, ne_eq]

set_option maxHeartbeats 2000000 in
theorem daysBeforeYear_succ (y : Nat) (h : 1 ≤ y) :
    daysBeforeYear (y + 1) = daysBeforeYear y + 365 + (if isLeap y then 1 else 0) := by
  by_cases hl : isLeap y = true
  · rw [if_pos hl]
    rw [isLeap_iff] at hl
    unfold daysBeforeYear
    omega
  · rw [if_neg hl]
    rw [isLeap_iff] at hl
    unfold daysBeforeYear
    omega

theorem daysBeforeMonth_succ_year (y m : Nat) :
    daysBeforeMonth y m ≤ daysBeforeMonth (y + 1) m + 1 ∧
      daysBeforeMonth (y + 1) m ≤ daysBeforeMonth y m + 1 := by
  unfold daysBeforeMonth
  split_ifs <;> omega

theorem toOrd_year_succ (y m d : Nat) (h : 1 ≤ y) :
    (Date.mk y m d).toOrd + 364 ≤ (Date.mk (y + 1) m d).toOrd := by
  have h1 := daysBeforeYear_succ y h
  have h2 := daysBeforeMonth_succ_year y m
  have key : daysBeforeYear y + daysBeforeMonth y m + d + 364 ≤
      daysBeforeYear (y + 1) + daysBeforeMonth (y + 1) m + d := by
    rcases h2 with ⟨h2a, h2b⟩
    split_ifs at h1 <;> omega
  show ((daysBeforeYear y + daysBeforeMonth y m + d : Nat) : Int) + 364 ≤
      ((daysBeforeYear (y + 1) + daysBeforeMonth (y + 1) m + d : Nat) : Int)
  exact_mod_cast key

theorem toOrd_year_mono (m d : Nat) {y y' : Nat} (h1 : 1 ≤ y) (h : y < y') :
    (Date.mk y m d).toOrd < (Date.mk y' m d).toOrd := by
  induction y' with
  | zero => omega
  | succ k ih =>
    rcases Nat.lt_succ_iff_lt_or_eq.mp h with hk | hk
    · have := ih hk
      have hstep := toOrd_year_succ k m d (by omega)
      omega
    · subst hk
      have hstep := toOrd_year_succ y m d h1
      omega

theorem mkDate_year_step (cur : Date) (hv : cur.IsValid)
    (h29 : ¬(cur.month = 2 ∧ cur.day = 29)) :
    mkDate (cur.year + 1) cur.month cur.day =
        some (Date.mk (cur.year + 1) cur.month cur.day) ∧
      (Date.mk (cur.year + 1) cur.month cur.day).IsValid := by
  obtain ⟨hy, hm1, hm2, hd1, hd2⟩ := hv
  have hdim : cur.day ≤ daysInMonth (cur.year + 1) cur.month := by
    by_cases hm : cur.month = 2
    · have hne : cur.day ≠ 29 := fun hd => h29 ⟨hm, hd⟩
      unfold daysInMonth at hd2 ⊢
      rw [if_pos hm] at hd2 ⊢
      split_ifs at hd2 ⊢ <;> omega
    · unfold daysInMonth at hd2 ⊢
      rw [if_neg hm] at hd2 ⊢
      split_ifs at hd2 ⊢ <;> omega
  have hvalid : (Date.mk (cur.year + 1) cur.month cur.day).IsValid :=
    ⟨Nat.le_add_left 1 cur.year, hm1, hm2, hd1, hdim⟩
  exact ⟨by unfold mkDate; rw [if_pos hvalid], hvalid⟩

theorem coupon_loop_succ (last : Date) (a : ℚ) (n : Nat) (cur : Date) :
    FixedRateACGB.coupon_loop last a (n + 1) cur =
      if cur.toOrd ≤ last.toOrd then
        match mkDate (cur.year + 1) cur.month cur.day with
        | none => none
        | some next =>
          (FixedRateACGB.coupon_loop last a n next).map
            (fun l => Coupon.mk a (FixedRateACGB._business_date (cur.toOrd - 9))
              (FixedRateACGB._business_date cur.toOrd) :: l)
      else some [] := rfl

theorem stepped_dates_succ (last : Date) (n : Nat) (cur : Date) :
    stepped_dates last (n + 1) cur =
      if cur.toOrd ≤ last.toOrd then
        cur :: stepped_dates last n (Date.mk (cur.year + 1) cur.month cur.day)
      else [] := rfl

theorem coupon_loop_eq_claim_series (last : Date) (a : ℚ) :
    ∀ (n : Nat) (cur : Date), cur.IsValid → ¬(cur.month = 2 ∧ cur.day = 29) →
      FixedRateACGB.loopFuel last cur ≤ n →
      FixedRateACGB.coupon_loop last a n cur =
        some ((stepped_dates last n cur).map (fun dt =>
          Coupon.mk a (FixedRateACGB._business_date (dt.toOrd - 9))
            (FixedRateACGB._business_date dt.toOrd))) := by
  intro n
  induction n with
  | zero =>
    intro cur _ _ hf
    exact absurd hf (by unfold FixedRateACGB.loopFuel; omega)
  | succ k ih =>
    intro cur hv h29 hf
    by_cases hle : cur.toOrd ≤ last.toOrd
    · obtain ⟨hmk, hvnext⟩ := mkDate_year_step cur hv h29
      have hstep : cur.toOrd + 364 ≤ (Date.mk (cur.year + 1) cur.month cur.day).toOrd :=
        toOrd_year_succ cur.year cur.month cur.day hv.1
      have hfnext : FixedRateACGB.loopFuel last (Date.mk (cur.year + 1) cur.month cur.day) ≤ k := by
        unfold FixedRateACGB.loopFuel at hf ⊢
        omega
      rw [coupon_loop_succ, stepped_dates_succ, if_pos hle, if_pos hle, hmk]
      show (FixedRateACGB.coupon_loop last a k (Date.mk (cur.year + 1) cur.month cur.day)).map
          (fun l => Coupon.mk a (FixedRateACGB._business_date (cur.toOrd - 9))
            (FixedRateACGB._business_date cur.toOrd) :: l) = _
      rw [ih (Date.mk (cur.year + 1) cur.month cur.day) hvnext h29 hfnext]
      simp
    · rw [coupon_loop_succ, stepped_dates_succ, if_neg hle, if_neg hle]
      simp

theorem coupon_loop_ex_le_payment (last : Date) (a : ℚ) :
    ∀ (n : Nat) (cur : Date) (l : List Coupon),
      FixedRateACGB.coupon_loop last a n cur = some l →
      ∀ c ∈ l, c.ex_date ≤ c.payment_date := by
  intro n
  induction n with
  | zero =>
    intro cur l h
    exact absurd h (by unfold FixedRateACGB.coupon_loop; simp)
  | succ k ih =>
    intro cur l h
    rw [coupon_loop_succ] at h
    by_cases hle : cur.toOrd ≤ last.toOrd
    · rw [if_pos hle] at h
      cases hmk : mkDate (cur.year + 1) cur.month cur.day with
      | none => rw [hmk] at h; simp at h
      | some next =>
        rw [hmk] at h
        replace h : (FixedRateACGB.coupon_loop last a k next).map
            (fun l => Coupon.mk a (FixedRateACGB._business_date (cur.toOrd - 9))
              (FixedRateACGB._business_date cur.toOrd) :: l) = some l := h
        cases hrec : FixedRateACGB.coupon_loop last a k next with
        | none => rw [hrec] at h; simp at h
        | some l' =>
          rw [hrec] at h
          simp only [Option.map_some', Option.some.injEq] at h
          subst h
          intro c hc
          rcases List.mem_cons.mp hc with rfl | hc'
          · show FixedRateACGB._business_date (cur.toOrd - 9) ≤
              FixedRateACGB._business_date cur.toOrd
            have h1 := business_date_le (cur.toOrd - 9)
            have h2 := le_business_date cur.toOrd
            omega
          · exact ih next l' hrec c hc'
    · rw [if_neg hle] at h
      simp only [Option.some.injEq] at h
      subst h
      intro c hc
      simp at hc

/-! ### Claim theorems -/

/-- C1: for every bond, discount curve and as-of date,
`calculate_dirty_value` equals the sum over coupons with ex-date strictly
after the as-of date of `curve(payment_date) * coupon_amount`, plus
`curve(maturity) * principle`; and coupons with ex-date on or before the
as-of date contribute nothing (the value is unchanged if they are
dropped from the bond). -/
theorem calculate_dirty_value_spec (b : FixedRateACGB) (curve : Int → ℚ) (today : Int) :
    b.calculate_dirty_value curve today =
        ((b.coupons.filter (fun c => today < c.ex_date)).map
          (fun c => curve c.payment_date * c.coupon_amount)).sum
        + curve b.maturity * b.principle ∧
      b.calculate_dirty_value curve today =
        FixedRateACGB.calculate_dirty_value
          ⟨b.principle, b.coupons.filter (fun c => today < c.ex_date), b.maturity,
            b._market_dirty_price⟩ curve today := by
  constructor
  · rfl
  · unfold FixedRateACGB.calculate_dirty_value
    simp [List.filter_filter]

/-- C7: under the flat curve `k`, the dirty value is `k` times the dirty
value under the flat curve `1`; under the flat curve `1` it is exactly
the principal plus the amounts of the coupons whose ex-date is strictly
after the as-of date. -/
theorem calculate_dirty_value_flat (b : FixedRateACGB) (today : Int) (k : ℚ) :
    b.calculate_dirty_value (fun _ => k) today =
        k * b.calculate_dirty_value (fun _ => 1) today ∧
      b.calculate_dirty_value (fun _ => 1) today =
        b.principle +
          ((b.coupons.filter (fun c => today < c.ex_date)).map
            (fun c => c.coupon_amount)).sum := by
  have hsum : ∀ (q : ℚ), ((b.coupons.filter (fun c => today < c.ex_date)).map
      (fun c => q * c.coupon_amount)).sum =
      q * ((b.coupons.filter (fun c => today < c.ex_date)).map
        (fun c => c.coupon_amount)).sum :=
    fun q => List.sum_map_mul_left _ _ q
  constructor
  · show ((b.coupons.filter (fun c => today < c.ex_date)).map
        (fun c => k * c.coupon_amount)).sum + k * b.principle =
      k * (((b.coupons.filter (fun c => today < c.ex_date)).map
        (fun c => (1 : ℚ) * c.coupon_amount)).sum + 1 * b.principle)
    rw [hsum k, hsum 1]
    ring
  · show ((b.coupons.filter (fun c => today < c.ex_date)).map
        (fun c => (1 : ℚ) * c.coupon_amount)).sum + 1 * b.principle = _
    rw [hsum 1]
    ring

/-- C9: writing through the `market_dirty_price` setter is read back by
both read accessors, `market_value` and `market_dirty_price` (the setter
updates the same `_market_dirty_price` field both getters read). -/
theorem market_price_accessor_roundtrip (b : FixedRateACGB) (v : ℚ) :
    (b.set_market_dirty_price v).market_value = v ∧
      (b.set_market_dirty_price v).market_dirty_price = v :=
  ⟨rfl, rfl⟩

/-- C2: on an empty bond list the knot-location stage of
`fit_discount_curve` fails with the out-of-range indexing fault (from
`sorted_bonds[0]`), not with the explicit empty-input calibration error
the spec demands. -/
theorem fit_discount_curve_empty_is_index_error (options : DiscountFitOptions) (today : Int) :
    fit_knot_locations [] options today = Except.error FitError.indexError ∧
      FitError.indexError ≠ FitError.emptyBondSet := by
  refine ⟨?_, by decide⟩
  unfold fit_knot_locations
  rw [List.mergeSort_nil]
  rfl

/-- C3 (amended): for a valid first pay date whose month/day is not
February 29, `construct_yearly_coupon_series` returns exactly the
coupons obtained by stepping one calendar year at a time (same month and
day) while on or before the last pay date, with payment date the
business roll of the stepped date, ex-date the business roll of the
stepped date minus 9 days, and amount `principle * rate`; in particular
it returns the empty list when the first pay date is after the last. -/
theorem yearly_coupon_series_eq_claim (first last : Date) (rate principle : ℚ)
    (hv : first.IsValid) (h29 : ¬(first.month = 2 ∧ first.day = 29)) :
    FixedRateACGB.construct_yearly_coupon_series first last rate principle =
      some (claim_coupon_series first last rate principle) :=
  coupon_loop_eq_claim_series last (principle * rate)
    (FixedRateACGB.loopFuel last first) first hv h29 (le_refl _)

/-- C3 witness: the amended claim evaluated at the repository test's
schedule 2020-11-21 to 2022-11-21 at rate 0.01 on principal 100. -/
theorem yearly_coupon_series_eq_claim_witness :
    (Date.mk 2020 11 21).IsValid ∧
      ¬((Date.mk 2020 11 21).month = 2 ∧ (Date.mk 2020 11 21).day = 29) ∧
      FixedRateACGB.construct_yearly_coupon_series (Date.mk 2020 11 21)
          (Date.mk 2022 11 21) (1/100) 100 =
        some (claim_coupon_series (Date.mk 2020 11 21) (Date.mk 2022 11 21) (1/100) 100) :=
  ⟨by decide, by decide,
    yearly_coupon_series_eq_claim (Date.mk 2020 11 21) (Date.mk 2022 11 21)
      (1/100) 100 (by decide) (by decide)⟩

/-- C3 counterexample: the claim as stated fails at first pay date
2020-02-29 (a valid date) with last pay date 2021-03-01: the source
raises `ValueError` on `date(2021, 2, 29)` (modelled `none`) instead of
returning the stepped coupon list. -/
theorem yearly_coupon_series_feb29_cex :
    FixedRateACGB.construct_yearly_coupon_series (Date.mk 2020 2 29)
        (Date.mk 2021 3 1) (1/100) 100 ≠
      some (claim_coupon_series (Date.mk 2020 2 29) (Date.mk 2021 3 1) (1/100) 100) := by
  decide

/-- C10: `construct_yearly_coupon_series` is a partial function: whenever
the first pay date is a (valid) February 29 on or before the last pay
date, the loop body executes and the year step `date(year + 1, 2, 29)`
raises (modelled `none`) instead of returning a coupon list. -/
theorem yearly_coupon_series_feb29_none (first last : Date) (rate principle : ℚ)
    (hv : first.IsValid) (hm : first.month = 2) (hd : first.day = 29)
    (hle : first.toOrd ≤ last.toOrd) :
    FixedRateACGB.construct_yearly_coupon_series first last rate principle = none := by
  have hleap : isLeap first.year = true := by
    have h2 : first.day ≤ daysInMonth first.year first.month := hv.2.2.2.2
    rw [hm, hd] at h2
    unfold daysInMonth at h2
    rw [if_pos rfl] at h2
    by_cases hL : isLeap first.year = true
    · exact hL
    · rw [if_neg hL] at h2; omega
  have hnl : ¬ isLeap (first.year + 1) = true := by
    rw [isLeap_iff] at hleap ⊢
    omega
  have hmk : mkDate (first.year + 1) first.month first.day = none := by
    unfold mkDate
    rw [if_neg]
    intro hvv
    have h5 : first.day ≤ daysInMonth (first.year + 1) first.month := hvv.2.2.2.2
    rw [hm, hd] at h5
    unfold daysInMonth at h5
    rw [if_pos rfl, if_neg hnl] at h5
    omega
  unfold FixedRateACGB.construct_yearly_coupon_series FixedRateACGB.loopFuel
  rw [coupon_loop_succ, if_pos hle, hmk]

/-- C10 witness: the partiality exhibited at the concrete valid input
2024-02-29 with last pay date 2025-06-30. -/
theorem yearly_coupon_series_feb29_none_witness :
    (Date.mk 2024 2 29).IsValid ∧
      (Date.mk 2024 2 29).toOrd ≤ (Date.mk 2025 6 30).toOrd ∧
      FixedRateACGB.construct_yearly_coupon_series (Date.mk 2024 2 29)
        (Date.mk 2025 6 30) (3/100) 100 = none :=
  ⟨by decide, by decide,
    yearly_coupon_series_feb29_none (Date.mk 2024 2 29) (Date.mk 2025 6 30)
      (3/100) 100 (by decide) rfl rfl (by decide)⟩

/-- C8: every coupon produced by a successful run of
`construct_yearly_coupon_series` satisfies the Coupon invariant
`ex_date <= payment_date`. -/
theorem coupon_series_invariant (first last : Date) (rate principle : ℚ)
    (l : List Coupon)
    (h : FixedRateACGB.construct_yearly_coupon_series first last rate principle = some l) :
    ∀ c ∈ l, c.ex_date ≤ c.payment_date :=
  coupon_loop_ex_le_payment last (principle * rate)
    (FixedRateACGB.loopFuel last first) first l h

/-- C8 witness: the invariant checked on the schedule 2020-11-21 to
2022-11-21 produced by the source (first coupon: ex-date ordinal 737741
= 2020-11-12, payment ordinal 737752 = 2020-11-23). -/
theorem coupon_series_invariant_witness :
    FixedRateACGB.construct_yearly_coupon_series (Date.mk 2020 11 21)
        (Date.mk 2022 11 21) (1/100) 100 =
      some [Coupon.mk 1 737741 737752, Coupon.mk 1 738106 738116,
        Coupon.mk 1 738473 738480] ∧
      (Coupon.mk 1 737741 737752).ex_date ≤ (Coupon.mk 1 737741 737752).payment_date := by
  have hs : FixedRateACGB.construct_yearly_coupon_series (Date.mk 2020 11 21)
      (Date.mk 2022 11 21) (1/100) 100 =
      some [Coupon.mk 1 737741 737752, Coupon.mk 1 738106 738116,
        Coupon.mk 1 738473 738480] := by
    unfold FixedRateACGB.construct_yearly_coupon_series
    rw [show (100 : ℚ) * (1 / 100) = 1 from by norm_num]
    decide
  exact ⟨hs, coupon_series_invariant (Date.mk 2020 11 21) (Date.mk 2022 11 21)
    (1/100) 100 _ hs (Coupon.mk 1 737741 737752) (List.mem_cons_self _ _)⟩

theorem stepped_dates_nil (last cur : Date) (h : ¬ cur.toOrd ≤ last.toOrd) :
    ∀ n, stepped_dates last n cur = [] := by
  intro n
  cases n with
  | zero => rfl
  | succ k => rw [stepped_dates_succ, if_neg h]

theorem stepped_dates_succ_mk (last : Date) (n : Nat) (y m d : Nat) :
    stepped_dates last (n + 1) (Date.mk y m d) =
      if (Date.mk y m d).toOrd ≤ last.toOrd then
        Date.mk y m d :: stepped_dates last n (Date.mk (y + 1) m d)
      else [] := rfl

theorem stepped_dates_closed (m d : Nat) :
    ∀ (N y0 n : Nat), 1 ≤ y0 →
      FixedRateACGB.loopFuel (Date.mk (y0 + N) m d) (Date.mk y0 m d) ≤ n →
      stepped_dates (Date.mk (y0 + N) m d) n (Date.mk y0 m d) =
        (List.range (N + 1)).map (fun i => Date.mk (y0 + i) m d) := by
  intro N
  induction N with
  | zero =>
    intro y0 n hy hf
    simp only [Nat.add_zero] at hf ⊢
    have hf2 : 2 ≤ n := by
      unfold FixedRateACGB.loopFuel at hf
      omega
    obtain ⟨k, rfl⟩ : ∃ k, n = k + 1 := ⟨n - 1, by omega⟩
    rw [stepped_dates_succ_mk, if_pos (le_refl _)]
    have hstep := toOrd_year_succ y0 m d hy
    rw [stepped_dates_nil (Date.mk y0 m d) (Date.mk (y0 + 1) m d) (by omega) k]
    simp [List.range_succ]
  | succ N ih =>
    intro y0 n hy hf
    have hstep := toOrd_year_succ y0 m d hy
    have hmono : (Date.mk y0 m d).toOrd < (Date.mk (y0 + (N + 1)) m d).toOrd :=
      toOrd_year_mono m d hy (by omega)
    have hf2 : 2 ≤ n := by
      unfold FixedRateACGB.loopFuel at hf
      omega
    obtain ⟨k, rfl⟩ : ∃ k, n = k + 1 := ⟨n - 1, by omega⟩
    rw [stepped_dates_succ_mk, if_pos (le_of_lt hmono)]
    have hIH := ih (y0 + 1) k (by omega) (by
      unfold FixedRateACGB.loopFuel at hf ⊢
      rw [show y0 + 1 + N = y0 + (N + 1) from by omega]
      omega)
    rw [show y0 + 1 + N = y0 + (N + 1) from by omega] at hIH
    rw [List.range_succ_eq_map, List.map_cons, List.map_map]
    congr 1
    rw [hIH]
    apply List.map_congr_left
    intro i _
    show Date.mk (y0 + 1 + i) m d = Date.mk (y0 + Nat.succ i) m d
    rw [show y0 + 1 + i = y0 + Nat.succ i from by omega]

/-- C4 (amended): for a valid first pay date `(y0, m, d)` not equal to
February 29 and a last pay date exactly `N` whole years later (same
month and day), `construct_yearly_coupon_series` produces exactly the
`N + 1` coupons of `claim_yearly_coupons` — the coupon for year
`y0 + i` has payment date the business roll of the stepped date and
ex-date the business roll of the stepped date minus 9 days — and every
coupon's payment date and ex-date fall on a weekday (Monday..Friday).
(The original claim's relation `exDate = roll(paymentDate - 9)` is
amended to `exDate = roll(steppedDate - 9)`: the two differ when the
stepped date falls on a weekend, see the counterexample.) -/
theorem yearly_coupon_series_count (y0 m d N : Nat) (rate principle : ℚ)
    (hv : (Date.mk y0 m d).IsValid) (h29 : ¬(m = 2 ∧ d = 29)) :
    FixedRateACGB.construct_yearly_coupon_series (Date.mk y0 m d)
        (Date.mk (y0 + N) m d) rate principle =
      some (claim_yearly_coupons y0 m d N rate principle) ∧
    (claim_yearly_coupons y0 m d N rate principle).length = N + 1 ∧
    ∀ c ∈ claim_yearly_coupons y0 m d N rate principle,
      weekday c.payment_date ≤ 4 ∧ weekday c.ex_date ≤ 4 := by
  refine ⟨?_, by simp [claim_yearly_coupons], ?_⟩
  · have h1 := coupon_loop_eq_claim_series (Date.mk (y0 + N) m d) (principle * rate)
      (FixedRateACGB.loopFuel (Date.mk (y0 + N) m d) (Date.mk y0 m d))
      (Date.mk y0 m d) hv h29 (le_refl _)
    rw [stepped_dates_closed m d N y0 _ hv.1 (le_refl _)] at h1
    rw [List.map_map] at h1
    exact h1
  · intro c hc
    simp only [claim_yearly_coupons, List.mem_map] at hc
    obtain ⟨i, _, rfl⟩ := hc
    exact ⟨weekday_business_date_le _, weekday_business_date_le _⟩

/-- C4 witness: the amended claim at first pay date 2019-06-30 with
N = 2 (last pay date 2021-06-30) at rate 1/4 on principal 8. -/
theorem yearly_coupon_series_count_witness :
    (Date.mk 2019 6 30).IsValid ∧ ¬((6 : Nat) = 2 ∧ (30 : Nat) = 29) ∧
      (FixedRateACGB.construct_yearly_coupon_series (Date.mk 2019 6 30)
          (Date.mk (2019 + 2) 6 30) (1/4) 8 =
        some (claim_yearly_coupons 2019 6 30 2 (1/4) 8) ∧
      (claim_yearly_coupons 2019 6 30 2 (1/4) 8).length = 2 + 1 ∧
      ∀ c ∈ claim_yearly_coupons 2019 6 30 2 (1/4) 8,
        weekday c.payment_date ≤ 4 ∧ weekday c.ex_date ≤ 4) :=
  ⟨by decide, by decide, yearly_coupon_series_count 2019 6 30 2 (1/4) 8 (by decide) (by decide)⟩

/-- C4 counterexample: the claim as stated fails at
firstPayDate = lastPayDate = 2020-11-21 (a Saturday, so N = 0): the
generated coupon has ex-date ordinal 737741 (2020-11-12, the roll of the
stepped date minus 9 days) but the business roll of
(payment_date - 9 days) is 737745 (2020-11-16). -/
theorem yearly_coupon_series_exdate_cex :
    FixedRateACGB.construct_yearly_coupon_series (Date.mk 2020 11 21)
        (Date.mk 2020 11 21) (1/100) 100 = some [Coupon.mk 1 737741 737752] ∧
      FixedRateACGB._business_date ((737752 : Int) - 9) = 737745 ∧
      (737745 : Int) ≠ 737741 := by
  refine ⟨?_, by decide, by decide⟩
  unfold FixedRateACGB.construct_yearly_coupon_series
  rw [show (100 : ℚ) * (1 / 100) = 1 from by norm_num]
  decide

/-- C6 (amended): writing `t` for the Act/365 year fraction from `today`
to `futureDate`: when `t ≠ 0` and `discount > 0`, `discount_to_yield`
returns `discount ^ (-1/t) - 1`; when `t = 0` it fails (the
`ZeroDivisionError` from `-1.0 / 0.0`); when `discount = 0` it fails
precisely for `t > 0` (`0.0 ** negative` raises), while for `t < 0` it
returns `0 ^ (-1/t) - 1 = -1` instead of failing — so the original
claim's "fails whenever discount <= 0" is too strong. -/
theorem discount_to_yield_spec (discount : ℝ) (future_date today : Int) :
    (_date_to_year_fraction_act_365 today future_date = 0 →
      discount_to_yield discount future_date today = none) ∧
    (_date_to_year_fraction_act_365 today future_date ≠ 0 → 0 < discount →
      discount_to_yield discount future_date today =
        some (discount ^
          (((-1 : ℚ) / _date_to_year_fraction_act_365 today future_date : ℚ) : ℝ) - 1)) ∧
    (0 < _date_to_year_fraction_act_365 today future_date → discount = 0 →
      discount_to_yield discount future_date today = none) ∧
    (_date_to_year_fraction_act_365 today future_date < 0 → discount = 0 →
      discount_to_yield discount future_date today = some (-1)) := by
  refine ⟨?_, ?_, ?_, ?_⟩
  · intro h
    simp only [discount_to_yield]
    rw [if_pos h]
  · intro h hpos
    simp only [discount_to_yield]
    rw [if_neg h, if_pos hpos]
  · intro ht h0
    have he : (-1 : ℚ) / _date_to_year_fraction_act_365 today future_date < 0 :=
      div_neg_of_neg_of_pos (by norm_num) ht
    simp only [discount_to_yield]
    rw [if_neg (ne_of_gt ht), if_neg (by rw [h0]; exact lt_irrefl 0), if_pos h0, if_pos he]
  · intro ht h0
    have he : 0 < (-1 : ℚ) / _date_to_year_fraction_act_365 today future_date :=
      div_pos_of_neg_of_neg (by norm_num) ht
    simp only [discount_to_yield]
    rw [if_neg (ne_of_lt ht), if_neg (by rw [h0]; exact lt_irrefl 0), if_pos h0,
      if_neg (not_lt_of_gt he)]
    norm_num

/-- C6 witness: the positive-discount branch at discount 1 with
futureDate 365 days after today. -/
theorem discount_to_yield_spec_witness :
    _date_to_year_fraction_act_365 0 365 ≠ 0 ∧ (0 : ℝ) < 1 ∧
      discount_to_yield 1 365 0 =
        some ((1 : ℝ) ^
          (((-1 : ℚ) / _date_to_year_fraction_act_365 0 365 : ℚ) : ℝ) - 1) :=
  ⟨by norm_num [_date_to_year_fraction_act_365], by norm_num,
    (discount_to_yield_spec 1 365 0).2.1
      (by norm_num [_date_to_year_fraction_act_365]) (by norm_num)⟩

/-- C6 counterexample: at discount 0 with futureDate 365 days before
today (t = -1, so the exponent -1/t is 1), the source computes
`pow(0.0, 1.0) - 1 = -1.0` and returns it; the claim as stated demands a
domain-error failure for every discount <= 0. -/
theorem discount_to_yield_zero_discount_cex :
    discount_to_yield 0 0 365 = some (-1) ∧ (some (-1 : ℝ) ≠ (none : Option ℝ)) := by
  constructor
  · simp only [discount_to_yield, _date_to_year_fraction_act_365]
    norm_num
  · simp

theorem pairwise_le_getLast (l : List FixedRateACGB)
    (hp : List.Pairwise (fun a b => a.maturity ≤ b.maturity) l) (hne : l ≠ []) :
    ∀ x ∈ l, x.maturity ≤ (l.getLast hne).maturity := by
  induction l with
  | nil => exact absurd rfl hne
  | cons a t ih =>
    cases t with
    | nil =>
      intro x hx
      rcases List.mem_singleton.mp hx with rfl
      exact le_refl _
    | cons b t2 =>
      intro x hx
      have hcons : b :: t2 ≠ [] := List.cons_ne_nil b t2
      rw [List.getLast_cons hcons]
      obtain ⟨ha, hptail⟩ := List.pairwise_cons.mp hp
      rcases List.mem_cons.mp hx with rfl | hx2
      · exact ha _ (List.getLast_mem hcons)
      · exact ih hptail hcons x hx2

theorem linspace_length (a b : ℚ) (n : Nat) : (linspace a b n).length = n := by
  unfold linspace
  rw [List.length_map, List.length_range]

/-- C5: for every non-empty bond list (with minimum maturity `m` and
maximum maturity `M`), options and as-of date, the knot-location stage
of `fit_discount_curve` lays out exactly `knot_count` equally spaced
points in year-fraction space over `[yf(today, curveStart),
yf(today, curveEnd)]`, where `curveStart = max today (m - extensionDays)`
(the minimum maturity minus the extension, clamped to today) and
`curveEnd = M + extensionDays`. -/
theorem fit_knot_locations_spec (bonds : List FixedRateACGB)
    (options : DiscountFitOptions) (today m M : Int)
    (hm : (bonds.map (fun b => b.maturity)).min? = some m)
    (hM : (bonds.map (fun b => b.maturity)).max? = some M) :
    fit_knot_locations bonds options today =
        Except.ok (claim_knot_locations options today m M) ∧
      (claim_knot_locations options today m M).length = options.knot_count := by
  rw [List.min?_eq_some_iff (le_refl) (fun a b => min_choice a b)
    (fun a b c => le_min_iff)] at hm
  rw [List.max?_eq_some_iff (le_refl) (fun a b => max_choice a b)
    (fun a b c => max_le_iff)] at hM
  obtain ⟨hmmem, hmle⟩ := hm
  obtain ⟨hMmem, hMle⟩ := hM
  have htrans : ∀ (a b c : FixedRateACGB),
      (decide (a.maturity ≤ b.maturity)) = true →
      (decide (b.maturity ≤ c.maturity)) = true →
      (decide (a.maturity ≤ c.maturity)) = true := by
    intro a b c h1 h2
    simp only [decide_eq_true_eq] at *
    omega
  have htotal : ∀ (a b : FixedRateACGB),
      ((decide (a.maturity ≤ b.maturity)) || (decide (b.maturity ≤ a.maturity))) = true := by
    intro a b
    simp only [Bool.or_eq_true, decide_eq_true_eq]
    omega
  have hsorted := List.sorted_mergeSort htrans htotal bonds
  have hperm := List.mergeSort_perm bonds (fun a b => decide (a.maturity ≤ b.maturity))
  have hpair : List.Pairwise (fun (a b : FixedRateACGB) => a.maturity ≤ b.maturity)
      (bonds.mergeSort (fun a b => decide (a.maturity ≤ b.maturity))) :=
    hsorted.imp (fun h => by simpa using h)
  have hne : bonds.mergeSort (fun a b => decide (a.maturity ≤ b.maturity)) ≠ [] := by
    intro hnil
    have : bonds = [] := by
      have := hperm.length_eq
      rw [hnil] at this
      exact List.length_eq_zero.mp this.symm
    subst this
    simp at hmmem
  obtain ⟨b0, rest, hcons⟩ := List.exists_cons_of_ne_nil hne
  -- the head of the sorted list has the minimum maturity
  have hb0 : b0.maturity = m := by
    have hb0mem : b0 ∈ bonds := by
      rw [← hperm.mem_iff, hcons]
      exact List.mem_cons_self _ _
    have h1 : m ≤ b0.maturity := hmle _ (List.mem_map.mpr ⟨b0, hb0mem, rfl⟩)
    obtain ⟨bm, hbmmem, hbmm⟩ := List.mem_map.mp hmmem
    have hbmsorted : bm ∈ b0 :: rest := by
      rw [← hcons, hperm.mem_iff]
      exact hbmmem
    rcases List.mem_cons.mp hbmsorted with rfl | hbmrest
    · omega
    · have := (List.pairwise_cons.mp (hcons ▸ hpair)).1 bm hbmrest
      omega
  -- the last of the sorted list has the maximum maturity
  have hlast := List.getLast?_eq_getLast _ hne
  set bl := (bonds.mergeSort (fun a b => decide (a.maturity ≤ b.maturity))).getLast hne with hbl
  have hblm : bl.maturity = M := by
    have hblmem : bl ∈ bonds := by
      rw [← hperm.mem_iff]
      exact List.getLast_mem hne
    have h1 : bl.maturity ≤ M := hMle _ (List.mem_map.mpr ⟨bl, hblmem, rfl⟩)
    obtain ⟨bM, hbMmem, hbMm⟩ := List.mem_map.mp hMmem
    have hbMsorted : bM ∈ bonds.mergeSort (fun a b => decide (a.maturity ≤ b.maturity)) := by
      rw [hperm.mem_iff]
      exact hbMmem
    have hle2 := pairwise_le_getLast _ hpair hne bM hbMsorted
    rw [← hbl] at hle2
    omega
  have hhead : (bonds.mergeSort (fun a b => decide (a.maturity ≤ b.maturity))).head? = some b0 := by
    rw [hcons]
    rfl
  constructor
  · simp only [fit_knot_locations, hhead, hlast]
    rw [hb0, hblm]
    have hmax : (if m - options.extenion_days < today then today
        else m - (options.extenion_days : Int)) = max today (m - options.extenion_days) := by
      rcases lt_or_ge (m - (options.extenion_days : Int)) today with h | h
      · rw [if_pos h, max_eq_left (le_of_lt h)]
      · rw [if_neg (not_lt.mpr h), max_eq_right h]
    rw [hmax]
    rfl
  · unfold claim_knot_locations
    rw [List.length_map, List.length_range]

/-- C5 witness: two bonds with maturities (ordinals) 1000 and 500, three
knots, 100 extension days, as-of ordinal 300: the curve start clamps to
max 300 (500 - 100) = 400 and the curve end is 1100. -/
theorem fit_knot_locations_spec_witness :
    (([FixedRateACGB.init 100 [] 1000, FixedRateACGB.init 100 [] 500].map
        (fun b => b.maturity)).min? = some 500) ∧
      (([FixedRateACGB.init 100 [] 1000, FixedRateACGB.init 100 [] 500].map
        (fun b => b.maturity)).max? = some 1000) ∧
      (fit_knot_locations [FixedRateACGB.init 100 [] 1000, FixedRateACGB.init 100 [] 500]
          (DiscountFitOptions.mk 3 100) 300 =
        Except.ok (claim_knot_locations (DiscountFitOptions.mk 3 100) 300 500 1000) ∧
      (claim_knot_locations (DiscountFitOptions.mk 3 100) 300 500 1000).length = 3) :=
  ⟨by decide, by decide,
    fit_knot_locations_spec [FixedRateACGB.init 100 [] 1000, FixedRateACGB.init 100 [] 500]
      (DiscountFitOptions.mk 3 100) 300 500 1000 (by decide) (by decide)⟩
